import Mathlib

/-!
# go-blackfire: verification of spec claims against the source

Shallow embedding of the core of the `go-blackfire` continuous-profiling
probe: the probe state machine (`probe.End`, `probe.canEndProfiling`,
`probe.GenerateSubProfileQuery`), the pprof-to-Blackfire profile builder
(`decycleStack`, `Function.AddReferences`, `Profile.addCPUSamples`,
`ReadFromPProf`, `writeSamples`, `writeTimelineData`), the agent client
prologue (`sendProfilePrologue`, `sendBlackfireYaml`), the profile handle
poller (`Profile.load`) and the agent connection (`Close`).

Go strings are modelled as `List Char`, raw bytes as `List Nat`,
`uint64` arithmetic as `Nat` reduced `% 2^64` where the source computes
in `uint64`, and Go maps as association lists or update functions.
Functions that can panic in Go (out-of-range indexing, nil dereference)
return `Option`/a dedicated result constructor at those points.
-/

set_option autoImplicit false

namespace GoBlackfire

/-- Go strings, modelled byte-per-char (all data handled here is ASCII). -/
abbrev GoStr := List Char

/-- `2^64`, the modulus of Go `uint64` arithmetic. -/
def U64 : Nat := 2 ^ 64

/-- Decimal digit to character, as Go `fmt`/`strconv` render digits. -/
def digitChar (d : Nat) : Char :=
  match d with
  | 0 => '0' | 1 => '1' | 2 => '2' | 3 => '3' | 4 => '4'
  | 5 => '5' | 6 => '6' | 7 => '7' | 8 => '8' | _ => '9'

/-- Little-endian decimal digits of `n`, with explicit fuel so that the
kernel can evaluate it (`fuel ≥ n` is always enough). -/
def natDigitsRev : Nat → Nat → List Char
  | 0, _ => []
  | fuel + 1, n => if n = 0 then [] else digitChar (n % 10) :: natDigitsRev fuel (n / 10)

/-- Decimal rendering of a natural, as Go `%d`/`strconv.Itoa` produce it. -/
def natToStr (n : Nat) : GoStr :=
  if n = 0 then ['0'] else (natDigitsRev n n).reverse

theorem natDigitsRev_eq {fuel n : Nat} (h : n ≤ fuel) :
    natDigitsRev fuel n = (Nat.digits 10 n).map digitChar := by
  induction fuel generalizing n with
  | zero =>
    have : n = 0 := by omega
    subst this
    simp [natDigitsRev]
  | succ fuel ih =>
    by_cases hn : n = 0
    · subst hn; simp [natDigitsRev]
    · have hdiv : n / 10 ≤ fuel := by
        have := Nat.div_lt_self (Nat.pos_of_ne_zero hn) (by norm_num : 1 < 10)
        omega
      rw [show natDigitsRev (fuel + 1) n =
        digitChar (n % 10) :: natDigitsRev fuel (n / 10) by simp [natDigitsRev, hn]]
      rw [Nat.digits_def' (by norm_num : (1 : Nat) < 10) (Nat.pos_of_ne_zero hn)]
      simp [ih hdiv]

theorem natToStr_eq (n : Nat) :
    natToStr n = if n = 0 then ['0'] else ((Nat.digits 10 n).map digitChar).reverse := by
  unfold natToStr
  by_cases hn : n = 0 <;> simp [hn, natDigitsRev_eq (le_refl n)]

theorem digitChar_inj : ∀ a : Nat, a < 10 → ∀ b : Nat, b < 10 →
    digitChar a = digitChar b → a = b := by
  decide

theorem digitChar_ne_at : ∀ d : Nat, d < 10 → digitChar d ≠ '@' := by
  decide

theorem natToStr_not_at (n : Nat) : '@' ∉ natToStr n := by
  rw [natToStr_eq]
  split
  · decide
  · intro hmem
    rcases List.mem_reverse.mp hmem with hmem
    rcases List.mem_map.mp hmem with ⟨d, hd, hdc⟩
    exact digitChar_ne_at d (Nat.digits_lt_base (by norm_num) hd) hdc

theorem map_digitChar_inj : ∀ (l1 l2 : List Nat), (∀ x ∈ l1, x < 10) →
    (∀ x ∈ l2, x < 10) → l1.map digitChar = l2.map digitChar → l1 = l2 := by
  intro l1
  induction l1 with
  | nil => intro l2 _ _ hm; cases l2 <;> simp_all
  | cons x xs ih =>
    intro l2 h1 h2 hm
    cases l2 with
    | nil => simp at hm
    | cons y ys =>
      simp at hm
      have hx := digitChar_inj x (h1 x (by simp)) y (h2 y (by simp)) hm.1
      have := ih ys (fun z hz => h1 z (by simp [hz])) (fun z hz => h2 z (by simp [hz])) hm.2
      simp [hx, this]

theorem natToStr_ne_zeroStr {b : Nat} (hb : b ≠ 0) : natToStr b ≠ ['0'] := by
  rw [natToStr_eq, if_neg hb]
  intro h
  have h' : (Nat.digits 10 b).map digitChar = ['0'] := by
    have := congrArg List.reverse h
    simpa using this
  rcases hd : Nat.digits 10 b with _ | ⟨d, rest⟩
  · rw [hd] at h'; simp at h'
  · rw [hd] at h'
    simp at h'
    obtain ⟨hdc, hrest⟩ := h'
    have hdlt : d < 10 := Nat.digits_lt_base (by norm_num) (by rw [hd]; simp)
    have hd0 : d = 0 := digitChar_inj d hdlt 0 (by norm_num) hdc
    have hof := Nat.ofDigits_digits 10 b
    rw [hd, hrest, hd0] at hof
    simp [Nat.ofDigits] at hof
    exact hb hof.symm

theorem natToStr_inj {a b : Nat} (h : natToStr a = natToStr b) : a = b := by
  by_cases ha : a = 0 <;> by_cases hb : b = 0
  · rw [ha, hb]
  · exact absurd (show natToStr b = ['0'] by rw [← h, ha]; rfl) (natToStr_ne_zeroStr hb)
  · exact absurd (show natToStr a = ['0'] by rw [h, hb]; rfl) (natToStr_ne_zeroStr ha)
  · rw [natToStr_eq, natToStr_eq, if_neg ha, if_neg hb] at h
    have h2 : (Nat.digits 10 a).map digitChar = (Nat.digits 10 b).map digitChar := by
      have := congrArg List.reverse h
      simpa using this
    have h3 := map_digitChar_inj _ _ (fun x hx => Nat.digits_lt_base (by norm_num) hx)
      (fun x hx => Nat.digits_lt_base (by norm_num) hx) h2
    have := congrArg (Nat.ofDigits 10) h3
    simpa [Nat.ofDigits_digits] using this

/-- Go `uint64(i)` conversion of a signed integer (two's-complement wrap). -/
def goUint64OfInt (i : Int) : Nat := (i % (2 ^ 64 : Int)).toNat

/-! ## pprof_reader: profile data model and the decycling pass -/

namespace PprofReader

/-- `pprof_reader.Function`: name plus the aggregated memory bookkeeping.
`MemoryCost` and `DistributedMemoryCost` are `uint64` in Go, modelled as
`Nat`; `ReferenceCount` is a Go `int`, modelled as `Int`. -/
structure Function where
  name : GoStr
  memoryCost : Nat
  distributedMemoryCost : Nat
  referenceCount : Int
  deriving DecidableEq, Repr

instance : Inhabited Function := ⟨⟨[], 0, 0, 0⟩⟩

/-- `Function.AddReferences`: bump the reference count and recompute the
cached distributed cost as `MemoryCost / uint64(ReferenceCount)`.
(Go panics when the new count is zero; that is unreachable since every
call site passes a clamped count ≥ 1, and the total embedding returns
the `Nat`-division default 0 there.) -/
def Function.AddReferences (f : Function) (count : Int) : Function :=
  let rc := f.referenceCount + count
  { f with referenceCount := rc,
           distributedMemoryCost := f.memoryCost / goUint64OfInt rc }

/-- `pprof_reader.Sample`: `Count` is a Go `int`, `CPUTime`/`MemUsage`
are `uint64`. The stack is root-first. -/
structure Sample where
  count : Int
  cpuTime : Nat
  memUsage : Nat
  stack : List Function
  deriving DecidableEq, Repr

/-- `pprof_reader.Profile`: the internal profile under construction.
The Go `Functions map[string]*Function` is modelled as an association
list from name to the (final) `Function` value. -/
structure Profile where
  cpuSampleRateHz : Int
  usecPerSample : Nat
  samples : List Sample
  functions : List (GoStr × Function)
  deriving DecidableEq, Repr

/-- The loop body state of `decycleStack`: the Go map `seen`, modelled as
a total function where 0 means "key absent" (stored values are ≥ 1). -/
def decycleAux (seen : GoStr → Nat) : List Function → List Function
  | [] => []
  | f :: rest =>
    let c := seen f.name
    if c = 0 then
      f :: decycleAux (fun m => if m = f.name then 1 else seen m) rest
    else
      { f with name := f.name ++ '@' :: natToStr c } ::
        decycleAux (fun m => if m = f.name then c + 1 else seen m) rest

/-- `decycleStack`: rename re-occurring function names within one stack
to `name@1`, `name@2`, … walking root-to-leaf. -/
def decycleStack (stack : List Function) : List Function :=
  decycleAux (fun _ => 0) stack

/-- The spec-side renaming: what the claim says happens to a frame whose
name already occurred `c` times before it (`c = 0`: untouched). -/
def renameDup (c : Nat) (f : Function) : Function :=
  if c = 0 then f else { f with name := f.name ++ '@' :: natToStr c }

theorem decycleAux_get? (L : List Function) :
    ∀ (seen : GoStr → Nat) (i : Nat),
      (decycleAux seen L).get? i = (L.get? i).map
        (fun f => renameDup (seen f.name + ((L.take i).map Function.name).count f.name) f) := by
  induction L with
  | nil => intro seen i; simp [decycleAux]
  | cons f rest ih =>
    intro seen i
    by_cases hc : seen f.name = 0
    · rw [show decycleAux seen (f :: rest) =
        f :: decycleAux (fun m => if m = f.name then 1 else seen m) rest by
          simp [decycleAux, hc]]
      cases i with
      | zero => simp [renameDup, hc]
      | succ i =>
        rw [List.get?_cons_succ, List.get?_cons_succ, ih, List.take_succ_cons]
        cases hget : rest.get? i with
        | none => rfl
        | some g =>
          simp only [Option.map_some', List.map_cons, List.count_cons]
          by_cases hg : g.name = f.name
          · simp [hg, hc, Nat.add_comm, Nat.add_left_comm, Nat.add_assoc]
          · simp [beq_iff_eq, Ne.symm hg, hg]
    · rw [show decycleAux seen (f :: rest) =
        { f with name := f.name ++ '@' :: natToStr (seen f.name) } ::
          decycleAux (fun m => if m = f.name then seen f.name + 1 else seen m) rest by
          simp [decycleAux, hc]]
      cases i with
      | zero => simp [renameDup, hc]
      | succ i =>
        rw [List.get?_cons_succ, List.get?_cons_succ, ih, List.take_succ_cons]
        cases hget : rest.get? i with
        | none => rfl
        | some g =>
          simp only [Option.map_some', List.map_cons, List.count_cons]
          by_cases hg : g.name = f.name
          · simp [hg, Nat.add_comm, Nat.add_left_comm, Nat.add_assoc]
          · simp [beq_iff_eq, Ne.symm hg, hg]

theorem decycleAux_length (L : List Function) :
    ∀ seen : GoStr → Nat, (decycleAux seen L).length = L.length := by
  induction L with
  | nil => intro seen; rfl
  | cons f rest ih =>
    intro seen
    by_cases hc : seen f.name = 0 <;> simp [decycleAux, hc, ih]

theorem decycleStack_get? (stack : List Function) (i : Nat) :
    (decycleStack stack).get? i = (stack.get? i).map
      (fun f => renameDup (((stack.take i).map Function.name).count f.name) f) := by
  rw [decycleStack, decycleAux_get?]
  simp

theorem append_cons_inj {c : Char} : ∀ {a b : List Char} {x y : List Char}, c ∉ a → c ∉ b →
    a ++ c :: x = b ++ c :: y → a = b ∧ x = y := by
  intro a
  induction a with
  | nil =>
    intro b x y _ hb h
    cases b with
    | nil => simpa using h
    | cons hd tl =>
      simp at h
      exact absurd (h.1 ▸ List.mem_cons_self hd tl) hb
  | cons hd tl ih =>
    intro b x y ha hb h
    cases b with
    | nil =>
      simp at h
      exact absurd (h.1 ▸ List.mem_cons_self hd tl) ha
    | cons hd2 tl2 =>
      simp at h
      obtain ⟨h1, h2⟩ := h
      have := ih (fun m => ha (List.mem_cons_of_mem hd m))
        (fun m => hb (List.mem_cons_of_mem hd2 m)) h2
      exact ⟨by simp [h1, this.1], this.2⟩

theorem renameDup_name_inj {c1 c2 : Nat} {f1 f2 : Function}
    (h1 : '@' ∉ f1.name) (h2 : '@' ∉ f2.name)
    (h : (renameDup c1 f1).name = (renameDup c2 f2).name) :
    f1.name = f2.name ∧ c1 = c2 := by
  unfold renameDup at h
  by_cases hc1 : c1 = 0 <;> by_cases hc2 : c2 = 0 <;>
    simp [hc1, hc2] at h
  · exact ⟨h, hc1.trans hc2.symm⟩
  · exact absurd (h ▸ (List.mem_append.mpr (Or.inr (List.mem_cons_self _ _)))) h1
  · exact absurd (h ▸ (List.mem_append.mpr (Or.inr (List.mem_cons_self _ _)))) h2
  · obtain ⟨hn, hs⟩ := append_cons_inj h1 h2 h
    exact ⟨hn, natToStr_inj hs⟩

theorem count_take_lt {l : List Function} {i j : Nat} (hij : i < j) {f : Function}
    (hget : l.get? i = some f) :
    ((l.take i).map Function.name).count f.name <
      ((l.take j).map Function.name).count f.name := by
  have hget2 : l[i]? = some f := by rw [← List.get?_eq_getElem?]; exact hget
  have hstep : ((l.take (i + 1)).map Function.name).count f.name =
      ((l.take i).map Function.name).count f.name + 1 := by
    rw [List.take_succ, hget2]
    simp
  have hmono : ((l.take (i + 1)).map Function.name).count f.name ≤
      ((l.take j).map Function.name).count f.name := by
    have heq : l.take (i + 1) = (l.take j).take (i + 1) := by
      rw [List.take_take, min_eq_left (by omega)]
    rw [heq]
    exact List.Sublist.count_le ((List.take_sublist _ _).map Function.name) _
  omega

/-- C2 (amended): after `decycleStack`,
(1) unconditionally, the frame at index `i` is the original frame with
its name renamed to `name@k` when `k` earlier frames of the stack bear
the same original name (`k = 0`: untouched) — so the k-th re-occurrence
of a name, walking root-to-leaf, becomes `name@k` with k starting at 1;
(2) provided no original name of the stack contains the character `'@'`,
every function name in the decycled stack is unique. -/
theorem decycleStack_spec (stack : List Function) :
    (∀ i : Nat, (decycleStack stack).get? i = (stack.get? i).map
      (fun f => renameDup (((stack.take i).map Function.name).count f.name) f)) ∧
    ((∀ f ∈ stack, '@' ∉ f.name) →
      ((decycleStack stack).map Function.name).Nodup) := by
  refine ⟨decycleStack_get? stack, ?_⟩
  intro hfree
  rw [List.nodup_iff_get?_ne_get?]
  intro i j hij hjlen
  have hjlen' : j < stack.length := by
    have h1 : (decycleStack stack).length = stack.length := decycleAux_length stack _
    simpa [h1] using hjlen
  have hilen : i < stack.length := lt_trans hij hjlen'
  cases hfi : stack.get? i with
  | none => exact absurd (List.get?_eq_none.mp hfi) (by omega)
  | some fi =>
    cases hfj : stack.get? j with
    | none => exact absurd (List.get?_eq_none.mp hfj) (by omega)
    | some fj =>
      intro hcontra
      rw [List.get?_map, List.get?_map, decycleStack_get? stack i,
        decycleStack_get? stack j, hfi, hfj] at hcontra
      simp only [Option.map_some'] at hcontra
      have hco := Option.some.inj hcontra
      have hfim : fi ∈ stack := List.get?_mem hfi
      have hfjm : fj ∈ stack := List.get?_mem hfj
      obtain ⟨hname, hcnt⟩ :=
        renameDup_name_inj (hfree fi hfim) (hfree fj hfjm) hco
      have hlt := count_take_lt hij hfi
      rw [hname] at hlt hcnt
      omega

/-- C2 counterexample: for the stack `[a@1, a, a]` (the literal name
`a@1` already present before decycling), the decycled stack has a
duplicate name — decycling renames the second `a` to `a@1`, which
collides with the pre-existing `a@1` — so the claim "after the
decycling pass every function name in the stack is unique" is false for
this stack. -/
theorem decycleStack_unique_counterexample :
    ¬ ((decycleStack
        [⟨['a', '@', '1'], 0, 0, 0⟩, ⟨['a'], 0, 0, 0⟩, ⟨['a'], 0, 0, 0⟩]).map
          Function.name).Nodup := by
  decide

theorem decycleStack_spec_witness :
    (∀ f ∈ [(⟨['a'], 0, 0, 0⟩ : Function), ⟨['b'], 1, 2, 3⟩, ⟨['a'], 0, 0, 0⟩],
      '@' ∉ f.name) ∧
    ((decycleStack [(⟨['a'], 0, 0, 0⟩ : Function), ⟨['b'], 1, 2, 3⟩,
        ⟨['a'], 0, 0, 0⟩]).map Function.name).Nodup ∧
    (decycleStack [(⟨['a'], 0, 0, 0⟩ : Function), ⟨['b'], 1, 2, 3⟩,
        ⟨['a'], 0, 0, 0⟩]).get? 2 =
      some (renameDup 1 ⟨['a'], 0, 0, 0⟩) :=
  ⟨by decide,
    (decycleStack_spec _).2 (by decide),
    by
      have h := (decycleStack_spec
        [(⟨['a'], 0, 0, 0⟩ : Function), ⟨['b'], 1, 2, 3⟩, ⟨['a'], 0, 0, 0⟩]).1 2
      rw [h]
      decide⟩

end PprofReader

/-! ## bf_format: emitting the profile body (`writeSamples`) -/

namespace BfFormat

open PprofReader

/-- The synthetic root name `go`. -/
def goName : GoStr := ['g', 'o']

/-- One line of the profile body as `writeSamples` renders it:
`edge f t c cpu mem` is the line `f==>t//c cpu mem` (the per-sample head
line `go==>…` uses `f = go`), `total c cpu mem` is the trailing
aggregate line `==>go//c cpu mem`. -/
inductive BFLine
  | edge (fromName toName : GoStr) (count : Int) (cpu mem : Nat)
  | total (count cpu mem : Nat)
  deriving DecidableEq, Repr

/-- `edgeMemCost := f.DistributedMemoryCost * uint64(sample.Count)`
(`uint64` multiplication). -/
def edgeCost (count : Int) (f : Function) : Nat :=
  (f.distributedMemoryCost * goUint64OfInt count) % U64

/-- The inner loop of `writeSamples`
(`for iStack := len(sample.Stack) - 1; iStack > 0; iStack--`): walk the
stack leaf-to-root accumulating `stackMemUsage` (2nd argument) and
`totalMemUsage` (3rd argument), emitting one edge line per non-root
frame.  Returns the lines in emission order and the updated
`totalMemUsage`. -/
def writeSampleEdges (stack : List Function) (count : Int) (cpu : Nat) :
    Nat → Nat → Nat → List BFLine × Nat
  | 0, _, totalMem => ([], totalMem)
  | i + 1, stackAcc, totalMem =>
    let f := stack.getD (i + 1) default
    let cost := edgeCost count f
    let totalMem' := (totalMem + cost) % U64
    let stackAcc' := (stackAcc + cost) % U64
    let rest := writeSampleEdges stack count cpu i stackAcc' totalMem'
    (.edge (stack.getD i default).name f.name count cpu stackAcc' :: rest.1, rest.2)

/-- The main loop of `writeSamples`: thread `totalCPUTime` and
`totalMemUsage` (both `uint64`) through the samples; every sample's
`CPUTime` is added to the total *before* the empty-stack `continue`;
each nonempty-stack sample emits its `go==>…` head line followed by its
edge lines; the loop ends with the trailing `==>go//1 … …` line. -/
def writeSamplesLoop : List Sample → Nat → Nat → List BFLine
  | [], totalCPU, totalMem => [.total 1 totalCPU totalMem]
  | s :: rest, totalCPU, totalMem =>
    let totalCPU' := (totalCPU + s.cpuTime) % U64
    if s.stack.isEmpty then
      writeSamplesLoop rest totalCPU' totalMem
    else
      let inner := writeSampleEdges s.stack s.count s.cpuTime (s.stack.length - 1) 0 totalMem
      (BFLine.edge goName (s.stack.headD default).name s.count s.cpuTime s.memUsage :: inner.1)
        ++ writeSamplesLoop rest totalCPU' inner.2

/-- `bf_format.writeSamples`: the profile body. -/
def writeSamples (p : Profile) : List BFLine :=
  writeSamplesLoop p.samples 0 0

/-- Sum of `sample.CPUTime` over a sample list (all samples, whether or
not their stack is empty). -/
def sumCPUTime (samples : List Sample) : Nat :=
  (samples.map Sample.cpuTime).sum

theorem writeSamplesLoop_getLast? (samples : List Sample) :
    ∀ totalCPU totalMem : Nat, totalCPU < U64 →
      ∃ m, (writeSamplesLoop samples totalCPU totalMem).getLast? =
        some (.total 1 ((totalCPU + sumCPUTime samples) % U64) m) := by
  induction samples with
  | nil =>
    intro tc tm htc
    exact ⟨tm, by simp [writeSamplesLoop, sumCPUTime, Nat.mod_eq_of_lt htc]⟩
  | cons s rest ih =>
    intro tc tm htc
    have htc' : (tc + s.cpuTime) % U64 < U64 :=
      Nat.mod_lt _ (by unfold U64; positivity)
    have hsum : ((tc + s.cpuTime) % U64 + sumCPUTime rest) % U64 =
        (tc + sumCPUTime (s :: rest)) % U64 := by
      rw [Nat.mod_add_mod]
      congr 1
      simp [sumCPUTime]
      omega
    by_cases hst : s.stack.isEmpty
    · obtain ⟨m, hm⟩ := ih ((tc + s.cpuTime) % U64) tm htc'
      exact ⟨m, by rw [writeSamplesLoop, if_pos hst, hm, hsum]⟩
    · obtain ⟨m, hm⟩ := ih ((tc + s.cpuTime) % U64)
        (writeSampleEdges s.stack s.count s.cpuTime (s.stack.length - 1) 0 tm).2 htc'
      refine ⟨m, ?_⟩
      rw [writeSamplesLoop, if_neg hst]
      rw [List.getLast?_append, hm, hsum]
      rfl

/-- C3: the body emitted by `writeSamples` ends with the trailing
aggregate line `==>go//1 T M` whose count is the literal 1 and whose
`T` is the sum of `sample.CPUTime` (CPU time in µs) over *all* samples
of the profile, including samples with an empty stack (their CPU time
is added before the `continue`) — provided the true sum does not exceed
the `uint64` range, in which the source accumulates it. -/
theorem writeSamples_total_line (p : Profile) (h : sumCPUTime p.samples < U64) :
    ∃ m, (writeSamples p).getLast? = some (.total 1 (sumCPUTime p.samples) m) := by
  obtain ⟨m, hm⟩ := writeSamplesLoop_getLast? p.samples 0 0 (by unfold U64; positivity)
  refine ⟨m, ?_⟩
  rw [writeSamples, hm]
  congr 2
  simp [Nat.mod_eq_of_lt h]

theorem writeSamples_total_line_witness :
    (sumCPUTime [⟨2, 100, 0, []⟩,
        ⟨1, 50, 0, [⟨['a'], 0, 0, 1⟩]⟩] < U64) ∧
    ∃ m, (writeSamples ⟨100, 10000,
        [⟨2, 100, 0, []⟩, ⟨1, 50, 0, [⟨['a'], 0, 0, 1⟩]⟩], []⟩).getLast? =
      some (.total 1 150 m) := by
  constructor
  · unfold U64 sumCPUTime; norm_num
  · have := writeSamples_total_line ⟨100, 10000,
      [⟨2, 100, 0, []⟩, ⟨1, 50, 0, [⟨['a'], 0, 0, 1⟩]⟩], []⟩
      (by unfold U64 sumCPUTime; norm_num)
    simpa [sumCPUTime] using this

theorem getElem?_eq_some_getD {l : List Function} {n : Nat} (h : n < l.length) :
    l[n]? = some (l.getD n default) := by
  rw [List.getElem?_eq_getElem h, List.getD_eq_getElem l default h]

theorem writeSampleEdges_get? (stack : List Function) (count : Int) (cpu : Nat) :
    ∀ i k acc tm : Nat, k < i → i < stack.length → acc < U64 →
      (writeSampleEdges stack count cpu i acc tm).1.get? k =
        some (.edge (stack.getD (i - k - 1) default).name (stack.getD (i - k) default).name
          count cpu
          ((acc + (((stack.drop (i - k)).take (k + 1)).map (edgeCost count)).sum) % U64)) := by
  intro i
  induction i with
  | zero => intro k acc tm hk _ _; omega
  | succ i ih =>
    intro k acc tm hk hi hacc
    cases k with
    | zero =>
      rw [writeSampleEdges]
      simp only [List.get?_cons_zero, Nat.sub_zero, Nat.add_sub_cancel]
      have h1 : (stack.drop (i + 1)).take 1 = [stack.getD (i + 1) default] := by
        rw [show (1 : Nat) = 0 + 1 from rfl, List.take_succ, List.take_zero,
          List.getElem?_drop, Nat.add_zero, getElem?_eq_some_getD hi]
        rfl
      rw [h1, show ([stack.getD (i + 1) default].map (edgeCost count)).sum =
        edgeCost count (stack.getD (i + 1) default) by simp]
    | succ k =>
      rw [writeSampleEdges]
      simp only [List.get?_cons_succ]
      have hk' : k < i := by omega
      have hi' : i < stack.length := by omega
      have hacc' : (acc + edgeCost count (stack.getD (i + 1) default)) % U64 < U64 :=
        Nat.mod_lt _ (by unfold U64; positivity)
      rw [ih k _ _ hk' hi' hacc']
      have hidx : i + 1 - (k + 1) = i - k := by omega
      rw [hidx]
      have htake : (stack.drop (i - k)).take (k + 1 + 1) =
          (stack.drop (i - k)).take (k + 1) ++ [stack.getD (i + 1) default] := by
        rw [List.take_succ, List.getElem?_drop,
          show i - k + (k + 1) = i + 1 by omega, getElem?_eq_some_getD hi]
        rfl
      have hmem : ((acc + edgeCost count (stack.getD (i + 1) default)) % U64 +
          (((stack.drop (i - k)).take (k + 1)).map (edgeCost count)).sum) % U64 =
          (acc + (((stack.drop (i - k)).take (k + 1 + 1)).map (edgeCost count)).sum) % U64 := by
        rw [htake, List.map_append, List.sum_append, Nat.mod_add_mod,
          show ([stack.getD (i + 1) default].map (edgeCost count)).sum =
            edgeCost count (stack.getD (i + 1) default) by simp]
        congr 1
        omega
      rw [hmem]

/-- C4: for a sample `s` and a non-root frame at index `i` of its
stack (`1 ≤ i < len`), the edge line emitted for that frame by
`writeSamples`'s inner loop carries, in its memory column, the running
sum — from the leaf down to frame `i` — of the distributed costs
`(f.MemoryCost / f.ReferenceCount) × s.Count`, each frame using its own
(fully accumulated) reference count.  Hypotheses: every frame's cached
`DistributedMemoryCost` equals `MemoryCost / uint64(ReferenceCount)`
(which `Function.AddReferences` establishes — see
`AddReferences_distributes`), the sample count is a valid non-negative
`uint64`, and the full stack's distributed total fits in `uint64` (the
range in which the source accumulates it). -/
theorem writeSamples_mem_running_sum (s : Sample) (i : Nat) (tm : Nat)
    (h1 : 1 ≤ i) (h2 : i < s.stack.length)
    (hdiv : ∀ f ∈ s.stack,
      f.distributedMemoryCost = f.memoryCost / goUint64OfInt f.referenceCount)
    (hc0 : 0 ≤ s.count) (hc1 : s.count < 2 ^ 64)
    (hbound : (((s.stack.drop 1).map
      (fun f => (f.memoryCost / goUint64OfInt f.referenceCount) * s.count.toNat)).sum) < U64) :
    (writeSampleEdges s.stack s.count s.cpuTime (s.stack.length - 1) 0 tm).1.get?
        (s.stack.length - 1 - i) =
      some (.edge (s.stack.getD (i - 1) default).name (s.stack.getD i default).name
        s.count s.cpuTime
        (((s.stack.drop i).map
          (fun f => (f.memoryCost / goUint64OfInt f.referenceCount) * s.count.toNat)).sum)) := by
  have hcnt : goUint64OfInt s.count = s.count.toNat := by
    unfold goUint64OfInt
    rw [Int.emod_eq_of_lt hc0 hc1]
  have hdropsub : ∀ j : Nat, 1 ≤ j → (s.stack.drop j).Sublist (s.stack.drop 1) := by
    intro j hj
    rw [show j = 1 + (j - 1) by omega, ← List.drop_drop]
    exact List.drop_sublist _ _
  -- each modded edge cost below the leaf equals the plain product
  have hterm : ∀ f ∈ s.stack.drop 1, edgeCost s.count f =
      (f.memoryCost / goUint64OfInt f.referenceCount) * s.count.toNat := by
    intro f hf
    have hfs : f ∈ s.stack := List.mem_of_mem_drop hf
    have hle : (f.memoryCost / goUint64OfInt f.referenceCount) * s.count.toNat ≤
        ((s.stack.drop 1).map
          (fun g => (g.memoryCost / goUint64OfInt g.referenceCount) * s.count.toNat)).sum :=
      List.single_le_sum (fun x _ => Nat.zero_le x) _ (List.mem_map_of_mem _ hf)
    unfold edgeCost
    rw [hdiv f hfs, hcnt]
    exact Nat.mod_eq_of_lt (by omega)
  have hlen1 : s.stack.length - 1 - (s.stack.length - 1 - i) = i := by omega
  rw [writeSampleEdges_get? s.stack s.count s.cpuTime (s.stack.length - 1)
    (s.stack.length - 1 - i) 0 tm (by omega) (by omega) (by unfold U64; positivity)]
  rw [hlen1]
  have htake : (s.stack.drop i).take (s.stack.length - 1 - i + 1) = s.stack.drop i := by
    apply List.take_of_length_le
    rw [List.length_drop]
    omega
  rw [htake]
  congr 2
  have hmapeq : (s.stack.drop i).map (edgeCost s.count) =
      (s.stack.drop i).map
        (fun f => (f.memoryCost / goUint64OfInt f.referenceCount) * s.count.toNat) := by
    apply List.map_congr_left
    intro f hf
    exact hterm f ((hdropsub i h1).mem hf)
  rw [hmapeq, Nat.zero_add]
  apply Nat.mod_eq_of_lt
  calc ((s.stack.drop i).map
      (fun f => (f.memoryCost / goUint64OfInt f.referenceCount) * s.count.toNat)).sum
      ≤ ((s.stack.drop 1).map
        (fun f => (f.memoryCost / goUint64OfInt f.referenceCount) * s.count.toNat)).sum := by
        apply List.Sublist.sum_le_sum ((hdropsub i h1).map _)
        intro a _
        exact Nat.zero_le a
    _ < U64 := hbound

/-- `Function.AddReferences` always leaves the cached distributed cost
equal to `MemoryCost / uint64(ReferenceCount)` — the invariant assumed
by `writeSamples_mem_running_sum` for pipeline-built functions. -/
theorem AddReferences_distributes (f : Function) (c : Int) :
    (f.AddReferences c).distributedMemoryCost =
      (f.AddReferences c).memoryCost / goUint64OfInt (f.AddReferences c).referenceCount := rfl

theorem writeSamples_mem_running_sum_witness :
    (writeSampleEdges
        [⟨goName, 0, 0, 1⟩, ⟨['b'], 10, 5, 2⟩, ⟨['c'], 9, 3, 3⟩]
        2 77 2 0 0).1.get? 1 =
      some (.edge goName ['b'] 2 77 16) := by
  have h := writeSamples_mem_running_sum
    ⟨2, 77, 0, [⟨goName, 0, 0, 1⟩, ⟨['b'], 10, 5, 2⟩, ⟨['c'], 9, 3, 3⟩]⟩ 1 0
    (by norm_num) (by norm_num)
    (by
      intro f hf
      fin_cases hf <;> rfl)
    (by norm_num) (by norm_num)
    (by decide)
  simpa using h

end BfFormat

/-! ## pprof_reader: building a profile from parsed pprof data
(`ReadFromPProf`, `addMemorySamples`, `addCPUSamples`,
`postProcessSamples`).  `pprof.Parse` (protobuf + gzip decoding, from the
vendored `internal/profile`) is out of scope: the embedding starts from
the parsed profiles it returns. -/

namespace PprofReader

/-- `internal/profile.Function` (only the name is consumed here). -/
structure PFunction where
  name : GoStr
  deriving DecidableEq, Repr

/-- `internal/profile.Line`. -/
structure PLine where
  function : PFunction
  deriving DecidableEq, Repr

/-- `internal/profile.Location`: one or more inline lines. -/
structure PLocation where
  line : List PLine
  deriving DecidableEq, Repr

/-- `internal/profile.Sample`: values plus a leaf-first location stack. -/
structure PSample where
  value : List Int
  location : List PLocation
  deriving DecidableEq, Repr

/-- `internal/profile.Profile` (the two fields consumed here). -/
structure PProfile where
  period : Int
  sample : List PSample
  deriving DecidableEq, Repr

/-- A sample as `addCPUSamples` stores it.  In Go the stack is a slice of
`*Function` pointers into the `Functions` map; since every
`AddReferences` mutation happens before `postProcessSamples` reads the
stacks, the builder records the frame names and resolves them against
the final map at post-processing time, which yields the same values the
pointers would. -/
structure RawSample where
  count : Int
  cpuTime : Nat
  stackNames : List GoStr
  deriving DecidableEq, Repr

/-- The `Profile` value while `ReadFromPProf` is filling it. -/
structure ProfileBuilder where
  cpuSampleRateHz : Int
  usecPerSample : Nat
  rawSamples : List RawSample
  functions : List (GoStr × Function)
  deriving DecidableEq, Repr

/-- `Profile.getMatchingFunction`: look the name up in the `Functions`
map, creating (and registering) a fresh entry when absent. -/
def getMatchingFunction (funcs : List (GoStr × Function)) (name : GoStr) :
    Function × List (GoStr × Function) :=
  match funcs.lookup name with
  | some f => (f, funcs)
  | none =>
    let f : Function := ⟨name, 0, 0, 0⟩
    (f, funcs ++ [(name, f)])

/-- Store a mutation of the named function back into the map (in Go this
is a pointer write). -/
def updateFunction (funcs : List (GoStr × Function)) (name : GoStr) (f : Function) :
    List (GoStr × Function) :=
  funcs.map (fun p => if p.1 = name then (name, f) else p)

/-- One iteration of `Profile.addMemorySamples`: read `Value[3]`; when
positive, accumulate it (as `uint64`) into the memory cost of
`Location[0].Line[0]`'s function.  `none` models the Go panics on
out-of-range indexing. -/
def addMemorySample (b : ProfileBuilder) (s : PSample) : Option ProfileBuilder :=
  match s.value.get? 3 with
  | none => none
  | some memUsage =>
    if 0 < memUsage then
      match s.location.get? 0 with
      | none => none
      | some loc =>
        match loc.line.get? 0 with
        | none => none
        | some li =>
          let res := getMatchingFunction b.functions li.function.name
          let f := res.1
          let f' : Function :=
            { f with memoryCost := (f.memoryCost + goUint64OfInt memUsage) % U64 }
          some { b with functions := updateFunction res.2 li.function.name f' }
    else some b

def addMemorySamplesLoop : ProfileBuilder → List PSample → Option ProfileBuilder
  | b, [] => some b
  | b, s :: rest =>
    match addMemorySample b s with
    | none => none
    | some b' => addMemorySamplesLoop b' rest

/-- The root-first frame names of a pprof sample: locations are stored
leaf-first and traversed in reverse, inline lines likewise. -/
def sampleStackNames (s : PSample) : List GoStr :=
  (s.location.reverse.map (fun loc => loc.line.reverse.map (fun li => li.function.name))).flatten

/-- `getMatchingFunction` + `f.AddReferences(int(callCount))` for one
stack frame. -/
def pushFrame (funcs : List (GoStr × Function)) (name : GoStr) (callCount : Int) :
    List (GoStr × Function) :=
  let res := getMatchingFunction funcs name
  updateFunction res.2 name (res.1.AddReferences callCount)

/-- One iteration of `Profile.addCPUSamples`: `callCount := Value[0]`
clamped below by 1, `cpuTime := uint64(Value[1]) / 1000` (ns → µs), the
stack rebuilt root-first with every frame's reference count bumped by
`callCount`, and the sample appended.  (In Go the stack frames and the
`Functions` map share pointers; `pushFrame` updates the map entry,
which is the same object.) -/
def addCPUSample (b : ProfileBuilder) (s : PSample) : Option ProfileBuilder :=
  match s.value.get? 0 with
  | none => none
  | some v0 =>
    let callCount : Int := if v0 < 1 then 1 else v0
    match s.value.get? 1 with
    | none => none
    | some v1 =>
      let cpuTime := goUint64OfInt v1 / 1000
      let names := sampleStackNames s
      some { b with
        functions := names.foldl (fun fs n => pushFrame fs n callCount) b.functions,
        rawSamples := b.rawSamples ++ [⟨callCount, cpuTime, names⟩] }

def addCPUSamplesLoop : ProfileBuilder → List PSample → Option ProfileBuilder
  | b, [] => some b
  | b, s :: rest =>
    match addCPUSample b s with
    | none => none
    | some b' => addCPUSamplesLoop b' rest

def addMemoryProfilesLoop : ProfileBuilder → List PProfile → Option ProfileBuilder
  | b, [] => some b
  | b, pp :: rest =>
    match addMemorySamplesLoop b pp.sample with
    | none => none
    | some b' => addMemoryProfilesLoop b' rest

/-- The CPU-buffer loop of `ReadFromPProf`:
`USecPerSample := uint64(p.Period) / 1000`,
`CpuSampleRateHz := int(1000000 / USecPerSample)` (Go panics on the
division by zero when the period is under 1000ns — modelled as `none`),
then `addCPUSamples`. -/
def addCPUProfilesLoop : ProfileBuilder → List PProfile → Option ProfileBuilder
  | b, [] => some b
  | b, pp :: rest =>
    if goUint64OfInt pp.period / 1000 = 0 then none
    else
      match addCPUSamplesLoop
        { b with usecPerSample := goUint64OfInt pp.period / 1000,
                 cpuSampleRateHz :=
                   ((1000000 / (goUint64OfInt pp.period / 1000) : Nat) : Int) }
        pp.sample with
      | none => none
      | some b' => addCPUProfilesLoop b' rest

/-- One iteration of `Profile.postProcessSamples`: decycle the stack,
then set `MemUsage` to the sum of the (final) distributed memory costs
along the decycled stack. -/
def postProcessSample (funcs : List (GoStr × Function)) (r : RawSample) : Sample :=
  let stack := decycleStack (r.stackNames.map (fun n => (funcs.lookup n).getD default))
  { count := r.count,
    cpuTime := r.cpuTime,
    memUsage := stack.foldl (fun acc f => (acc + f.distributedMemoryCost) % U64) 0,
    stack := stack }

def postProcessSamples (b : ProfileBuilder) : Profile :=
  { cpuSampleRateHz := b.cpuSampleRateHz,
    usecPerSample := b.usecPerSample,
    samples := b.rawSamples.map (postProcessSample b.functions),
    functions := b.functions }

/-- `ReadFromPProf`: memory buffers first, then CPU buffers, then the
post-processing pass. -/
def ReadFromPProf (cpuProfiles memProfiles : List PProfile) : Option Profile :=
  match addMemoryProfilesLoop ⟨0, 0, [], []⟩ memProfiles with
  | none => none
  | some b1 =>
    match addCPUProfilesLoop b1 cpuProfiles with
    | none => none
    | some b2 => some (postProcessSamples b2)

theorem addMemorySample_raw {b : ProfileBuilder} {s : PSample} {b' : ProfileBuilder}
    (h : addMemorySample b s = some b') : b'.rawSamples = b.rawSamples := by
  unfold addMemorySample at h
  repeat' split at h
  all_goals simp_all
  all_goals subst h; rfl

theorem addMemorySamplesLoop_raw {samples : List PSample} :
    ∀ {b b' : ProfileBuilder}, addMemorySamplesLoop b samples = some b' →
      b'.rawSamples = b.rawSamples := by
  induction samples with
  | nil => intro b b' h; cases h; rfl
  | cons s rest ih =>
    intro b b' h
    unfold addMemorySamplesLoop at h
    split at h
    · cases h
    · rename_i b1 hb1
      rw [ih h, addMemorySample_raw hb1]

theorem addMemoryProfilesLoop_raw {profiles : List PProfile} :
    ∀ {b b' : ProfileBuilder}, addMemoryProfilesLoop b profiles = some b' →
      b'.rawSamples = b.rawSamples := by
  induction profiles with
  | nil => intro b b' h; cases h; rfl
  | cons pp rest ih =>
    intro b b' h
    unfold addMemoryProfilesLoop at h
    split at h
    · cases h
    · rename_i b1 hb1
      rw [ih h, addMemorySamplesLoop_raw hb1]

theorem addCPUSample_inv {b : ProfileBuilder} {s : PSample} {b' : ProfileBuilder}
    (h : addCPUSample b s = some b')
    (hinv : ∀ r ∈ b.rawSamples, 1 ≤ r.count) :
    ∀ r ∈ b'.rawSamples, 1 ≤ r.count := by
  unfold addCPUSample at h
  repeat' split at h
  all_goals simp_all
  all_goals
    rw [← h]
    dsimp only
    intro r hr
    rcases List.mem_append.mp hr with hr | hr
    · exact hinv r hr
    · rw [List.mem_singleton] at hr
      subst hr
      dsimp only
      omega

theorem addCPUSamplesLoop_inv {samples : List PSample} :
    ∀ {b b' : ProfileBuilder}, addCPUSamplesLoop b samples = some b' →
      (∀ r ∈ b.rawSamples, 1 ≤ r.count) → ∀ r ∈ b'.rawSamples, 1 ≤ r.count := by
  induction samples with
  | nil => intro b b' h hinv; cases h; exact hinv
  | cons s rest ih =>
    intro b b' h hinv
    unfold addCPUSamplesLoop at h
    split at h
    · cases h
    · rename_i b1 hb1
      exact ih h (addCPUSample_inv hb1 hinv)

theorem addCPUProfilesLoop_inv {profiles : List PProfile} :
    ∀ {b b' : ProfileBuilder}, addCPUProfilesLoop b profiles = some b' →
      (∀ r ∈ b.rawSamples, 1 ≤ r.count) → ∀ r ∈ b'.rawSamples, 1 ≤ r.count := by
  induction profiles with
  | nil => intro b b' h hinv; cases h; exact hinv
  | cons pp rest ih =>
    intro b b' h hinv
    unfold addCPUProfilesLoop at h
    split at h
    · cases h
    · split at h
      · cases h
      · rename_i b1 hb1
        exact ih h (addCPUSamplesLoop_inv hb1 hinv)

/-- C10: every sample of a profile built by `ReadFromPProf` has a count
of at least 1: `addCPUSamples` clamps any sampled call count below 1 up
to 1 before appending, memory samples append no samples, and
post-processing preserves counts. -/
theorem ReadFromPProf_count_pos (cpuProfiles memProfiles : List PProfile)
    (p : Profile) (h : ReadFromPProf cpuProfiles memProfiles = some p) :
    ∀ s ∈ p.samples, 1 ≤ s.count := by
  unfold ReadFromPProf at h
  split at h
  · cases h
  · rename_i b1 hb1
    split at h
    · cases h
    · rename_i b2 hb2
      cases h
      intro s hs
      simp only [postProcessSamples, List.mem_map] at hs
      obtain ⟨r, hr, hrs⟩ := hs
      have hraw1 : ∀ r ∈ b1.rawSamples, 1 ≤ r.count := by
        rw [addMemoryProfilesLoop_raw hb1]
        intro r hr
        simp at hr
      have := addCPUProfilesLoop_inv hb2 hraw1 r hr
      rw [← hrs]
      simpa [postProcessSample]

theorem ReadFromPProf_count_pos_witness :
    (ReadFromPProf
        [⟨10000000, [⟨[0, 2000000], [⟨[⟨⟨['m', 'a', 'i', 'n']⟩⟩]⟩]⟩]⟩] []).isSome = true ∧
    ∀ p, ReadFromPProf
        [⟨10000000, [⟨[0, 2000000], [⟨[⟨⟨['m', 'a', 'i', 'n']⟩⟩]⟩]⟩]⟩] [] = some p →
      ∀ s ∈ p.samples, 1 ≤ s.count :=
  ⟨by decide, fun p h => ReadFromPProf_count_pos _ _ p h⟩

end PprofReader

/-! ## bf_format: the timeline pass (`writeTimelineData`) -/

namespace BfFormat

open PprofReader

/-- `bf_format.timelineEntry`.  `Parent`/`Function` are `*Function`
pointers in Go — `none` models `nil` (the pre-seeded placeholder
entries `&timelineEntry{}` carry nil pointers). -/
structure TimelineEntry where
  parent : Option Function
  function : Option Function
  cpuStart : Nat
  cpuEnd : Nat
  memStart : Nat
  memEnd : Nat
  deriving DecidableEq, Repr

/-- `&timelineEntry{}` — the placeholder entry. -/
def emptyTLEntry : TimelineEntry := ⟨none, none, 0, 0, 0, 0⟩

/-- `activeTLEntries`: Go `map[string]*timelineEntry`, where reading a
missing key and reading an explicitly stored `nil` both yield `nil`. -/
abbrev ActiveMap := List (GoStr × Option TimelineEntry)

def activeGet (m : ActiveMap) (n : GoStr) : Option TimelineEntry :=
  match m.lookup n with
  | some e => e
  | none => none

def activeSet (m : ActiveMap) (n : GoStr) (e : Option TimelineEntry) : ActiveMap :=
  if (m.lookup n).isSome then m.map (fun p => if p.1 = n then (n, e) else p)
  else m ++ [(n, e)]

/-- The 2-level fake root (`golang`, `go`) prepended to every stack. -/
def fakeStackTop : List Function :=
  [⟨"golang".data, 0, 0, 1⟩, ⟨"go".data, 0, 0, 1⟩]

/-- The scan state of `writeTimelineData` between samples. -/
structure TLState where
  active : ActiveMap
  closed : List (Option TimelineEntry)
  prev : Sample
  currentCPUTime : Nat
  lastMatch : Nat
  deriving DecidableEq, Repr

/-- The common-prefix loop: for each index where the current and
previous stacks bear the same name, advance that entry's `CPUEnd` and
remember the index in `lastMatchStackIndex`; stop at the first
mismatch.  `none` models the Go nil-pointer dereference when a matched
name has no active entry. -/
def tlMatchLoop (cpu : Nat) :
    List (Function × Function) → ActiveMap → Nat → Nat → Option (ActiveMap × Nat)
  | [], active, _, lastMatch => some (active, lastMatch)
  | (n, p) :: rest, active, i, lastMatch =>
    if n.name = p.name then
      match activeGet active n.name with
      | none => none
      | some e =>
        tlMatchLoop cpu rest
          (activeSet active n.name (some { e with cpuEnd := (e.cpuEnd + cpu) % U64 }))
          (i + 1) i
    else some (active, lastMatch)

/-- The mid-scan close loop: indices of the previous stack beyond the
match are closed leaf-to-root — the entry is appended to
`tlEntriesByEndTime` and the map slot set to `nil`. -/
def tlCloseRange (stack : List Function) (idxs : List Nat)
    (st : ActiveMap × List (Option TimelineEntry)) :
    ActiveMap × List (Option TimelineEntry) :=
  idxs.foldl (fun acc i =>
    let name := (stack.getD i default).name
    (activeSet acc.1 name none, acc.2 ++ [activeGet acc.1 name])) st

/-- The open loop: indices of the current stack beyond the match are
opened with the running CPU time and the sample's memory usage. -/
def tlOpenRange (stack : List Function) (mem cpuStart cpuEnd : Nat) (idxs : List Nat)
    (active : ActiveMap) : ActiveMap :=
  idxs.foldl (fun a i =>
    activeSet a (stack.getD i default).name
      (some ⟨some (stack.getD (i - 1) default), some (stack.getD i default),
        cpuStart, cpuEnd, mem, mem⟩)) active

/-- One iteration of the sample loop of `writeTimelineData`. -/
def tlStep (st : TLState) (now : Sample) : Option TLState :=
  let prevLen := st.prev.stack.length
  let nowLen := now.stack.length
  match tlMatchLoop now.cpuTime (now.stack.zip st.prev.stack) st.active 0 0 with
  | none => none
  | some (a1, lastMatch) =>
    let closeIdxs := (List.range' (lastMatch + 1) (prevLen - 1 - lastMatch)).reverse
    let p1 := tlCloseRange st.prev.stack closeIdxs (a1, st.closed)
    let openIdxs := List.range' (lastMatch + 1) (nowLen - 1 - lastMatch)
    let a2 := tlOpenRange now.stack now.memUsage st.currentCPUTime
      ((st.currentCPUTime + now.cpuTime) % U64) openIdxs p1.1
    some { active := a2, closed := p1.2, prev := now,
           currentCPUTime := (st.currentCPUTime + now.cpuTime) % U64,
           lastMatch := lastMatch }

/-- The sample scan of `writeTimelineData`: prepend the fake stack top
to every sample, pre-seed the active map with placeholder entries for
the fake frames, and fold `tlStep` over the samples. -/
def writeTimelineScan (samples : List Sample) : Option TLState :=
  let altered := samples.map (fun s => { s with stack := fakeStackTop ++ s.stack })
  let init : TLState :=
    ⟨[("golang".data, some emptyTLEntry), ("go".data, some emptyTLEntry)],
      [], ⟨0, 0, 0, []⟩, 0, 0⟩
  altered.foldl (fun acc s => match acc with
    | none => none
    | some st => tlStep st s) (some init)

/-- The final close of `writeTimelineData`
(`for i := lastMatchStackIndex; i >= 1; i--`): append the active
entries of the last stack at indices `lastMatchStackIndex` down to 1 to
`tlEntriesByEndTime` (the map is not updated there), and return the
full `tlEntriesByEndTime`. -/
def writeTimelineEntries (samples : List Sample) : Option (List (Option TimelineEntry)) :=
  match writeTimelineScan samples with
  | none => none
  | some st =>
    let idxs := (List.range' 1 st.lastMatch).reverse
    some (st.closed ++
      idxs.map (fun i => activeGet st.active (st.prev.stack.getD i default).name))

/-- The `Threshold-<i>-start` / `Threshold-<i>-end` header pair of one
closed entry (the `parent==>` prefix omitted for nil parents); `none`
models the nil dereference of `entry.Function` for a nil entry. -/
def tlHeaderLines (i : Nat) (e : TimelineEntry) : Option (List GoStr) :=
  match e.function with
  | none => none
  | some f =>
    match e.parent with
    | some p => some
      ["Threshold-".data ++ natToStr i ++ "-start: ".data ++ p.name ++ "==>".data ++
        f.name ++ "//".data ++ natToStr e.cpuStart ++ ' ' :: natToStr e.memStart,
       "Threshold-".data ++ natToStr i ++ "-end: ".data ++ p.name ++ "==>".data ++
        f.name ++ "//".data ++ natToStr e.cpuEnd ++ ' ' :: natToStr e.memEnd]
    | none => some
      ["Threshold-".data ++ natToStr i ++ "-start: ".data ++ f.name ++ "//".data ++
        natToStr e.cpuStart ++ ' ' :: natToStr e.memStart,
       "Threshold-".data ++ natToStr i ++ "-end: ".data ++ f.name ++ "//".data ++
        natToStr e.cpuEnd ++ ' ' :: natToStr e.memEnd]

def emitTimelineLoop : Nat → List (Option TimelineEntry) → Option (List GoStr)
  | _, [] => some []
  | _, none :: _ => none
  | i, some e :: rest =>
    match tlHeaderLines i e with
    | none => none
    | some ls => (emitTimelineLoop (i + 1) rest).map (fun t => ls ++ t)

/-- `bf_format.writeTimelineData`: the emitted Threshold header lines. -/
def writeTimelineData (p : Profile) : Option (List GoStr) :=
  (writeTimelineEntries p.samples).bind (emitTimelineLoop 0)

end BfFormat

/-- C5 (the code at the failing input): for a profile with a single CPU
sample of stack `[main.work]` (with `flag_timespan=1`), the scan opens
timeline entries for `go` and `main.work` — `main.work`'s entry is still
active when the last sample has been processed — yet the final close
loop, which runs from `lastMatchStackIndex` (here 0) down to 1 instead
of from the end of the last stack, closes nothing: no Threshold header
at all is emitted, so the opened functions never appear. -/
theorem writeTimelineData_single_sample_bug :
    BfFormat.writeTimelineData
        ⟨100, 10000, [⟨1, 1000, 0, [⟨"main.work".data, 0, 0, 1⟩]⟩], []⟩ = some [] ∧
    (BfFormat.writeTimelineScan [⟨1, 1000, 0, [⟨"main.work".data, 0, 0, 1⟩]⟩]).map
        (fun st => ((BfFormat.activeGet st.active "main.work".data).isSome,
          (BfFormat.activeGet st.active "go".data).isSome, st.lastMatch)) =
      some (true, true, 0) := by
  constructor
  · rfl
  · rfl

/-! ## The profile handle poller (`Profile.load` in package blackfire) -/

namespace Handle

/-- `blackfire.Status` (`{name, code, failure_reason}`). -/
structure Status where
  name : GoStr
  code : Int
  failureReason : GoStr
  deriving DecidableEq, Repr

/-- `blackfire.Profile`, the profile handle — only the fields `load`
reads or writes (`UUID`, URLs, title, envelope are carried along
unchanged and omitted here). -/
structure Profile where
  status : Status
  retries : Int
  loaded : Bool
  deriving DecidableEq, Repr

/-- The part of the decoded JSON body that `load` consumes
(`json.Unmarshal` merges it into the handle; only `status` matters to
the sealing logic). -/
structure LoadedData where
  status : Status
  deriving DecidableEq, Repr

/-- The outcome of the HTTP poll in `load`: a transport-level error
(request building, `client.Do`, or reading the body), or a response
with its status code and — for responses that are read — the decode
result of the JSON body. -/
inductive LoadResponse
  | transportError (e : GoStr)
  | response (statusCode : Int) (body : Except GoStr LoadedData)
  deriving Repr

/-- `Profile.load`: return immediately when sealed (`loaded`); bump the
retry counter, sealing as `errored` after the 60th poll; otherwise
classify the response: 404 ⇒ `queued` (not sealed), other ≥ 400 ⇒
`errored` and sealed, decode error ⇒ `"JSON error: …"`, decoded
`status.code > 0` ⇒ sealed.  (An `ioutil.ReadAll` failure, which Go
returns unprefixed, is subsumed under the body-decode error here; no
claim distinguishes the two.) -/
def load (p : Profile) (resp : LoadResponse) : Profile × Option GoStr :=
  if p.loaded then (p, none)
  else
    let p1 := { p with retries := p.retries + 1 }
    if p1.retries > 60 then
      ({ p1 with status := ⟨"errored".data, 0, []⟩, loaded := true }, none)
    else
      match resp with
      | .transportError e => (p1, some e)
      | .response code body =>
        if code = 404 then ({ p1 with status := ⟨"queued".data, 0, []⟩ }, none)
        else if code ≥ 400 then
          ({ p1 with status := ⟨"errored".data, 0, []⟩, loaded := true }, none)
        else
          match body with
          | .error e => (p1, some ("JSON error: ".data ++ e))
          | .ok d =>
            if d.status.code > 0 then
              ({ p1 with status := d.status, loaded := true }, none)
            else ({ p1 with status := d.status }, none)

end Handle

/-- C8 counterexample: a handle that is not yet sealed but has already
been polled 60 times is sealed as `errored` by the next `load` call
even though the poll would have returned 404 — the claim's "404 sets
status queued without sealing" does not hold for it. -/
theorem profile_load_retry_cap_counterexample :
    (Handle.load ⟨⟨[], 0, []⟩, 60, false⟩
        (.response 404 (.ok ⟨⟨[], 0, []⟩⟩))).1.loaded = true ∧
    (Handle.load ⟨⟨[], 0, []⟩, 60, false⟩
        (.response 404 (.ok ⟨⟨[], 0, []⟩⟩))).1.status.name = "errored".data := by
  constructor <;> rfl

/-- C8 amended: for a handle that is not sealed and has been polled
fewer than 60 times, `load` polls and classifies the response exactly
as the claim says: HTTP 404 sets status `queued` without sealing; any
other status code ≥ 400 sets `errored` and seals; a successful response
whose decoded `status.code > 0` seals the handle (storing the decoded
status).  (The 61st call instead seals the handle as `errored` without
polling — the retry cap the original claim omits.) -/
theorem profile_load_classifies (p : Handle.Profile) (resp : Handle.LoadResponse)
    (hnl : p.loaded = false) (hr : p.retries < 60) :
    (∀ b, resp = .response 404 b →
      Handle.load p resp =
        (⟨⟨"queued".data, 0, []⟩, p.retries + 1, false⟩, none)) ∧
    (∀ code b, resp = .response code b → code ≠ 404 → 400 ≤ code →
      Handle.load p resp =
        (⟨⟨"errored".data, 0, []⟩, p.retries + 1, true⟩, none)) ∧
    (∀ code d, resp = .response code (.ok d) → code ≠ 404 → code < 400 →
        0 < d.status.code →
      Handle.load p resp = (⟨d.status, p.retries + 1, true⟩, none)) := by
  obtain ⟨pst, pret, pl⟩ := p
  simp only at hnl hr
  subst hnl
  refine ⟨?_, ?_, ?_⟩
  · intro b hresp
    subst hresp
    unfold Handle.load
    simp only [Bool.false_eq_true, if_false]
    rw [if_neg (by simp only; omega : ¬(⟨pst, pret + 1, false⟩ : Handle.Profile).retries > 60)]
    simp
  · intro code b hresp h404 h400
    subst hresp
    unfold Handle.load
    simp only [Bool.false_eq_true, if_false]
    rw [if_neg (by simp only; omega : ¬(⟨pst, pret + 1, false⟩ : Handle.Profile).retries > 60),
      if_neg (by omega : ¬code = 404), if_pos h400]
  · intro code d hresp h404 h400 hcode
    subst hresp
    unfold Handle.load
    simp only [Bool.false_eq_true, if_false]
    rw [if_neg (by simp only; omega : ¬(⟨pst, pret + 1, false⟩ : Handle.Profile).retries > 60),
      if_neg (by omega : ¬code = 404), if_neg (by omega : ¬400 ≤ code)]
    rw [if_pos hcode]

theorem profile_load_classifies_witness :
    Handle.load ⟨⟨[], 0, []⟩, 3, false⟩ (.response 404 (.ok ⟨⟨[], 0, []⟩⟩)) =
      (⟨⟨"queued".data, 0, []⟩, 4, false⟩, none) := by
  have h := (profile_load_classifies ⟨⟨[], 0, []⟩, 3, false⟩
    (.response 404 (.ok ⟨⟨[], 0, []⟩⟩)) rfl (by norm_num)).1
    (.ok ⟨⟨[], 0, []⟩⟩) rfl
  simpa using h

/-! ## Models of the Go standard-library string and URL helpers used by
the probe (`strings.Split`, `strings.TrimRight`, `strings.TrimSpace`,
`net/url.ParseQuery` / `Values` / `QueryEscape` at Go 1.11 semantics,
`encoding/base64.StdEncoding`). -/

namespace GoStd

/-- First index at which `sep` occurs in `s` (Go `strings.Index`). -/
def findSub (sep : GoStr) : GoStr → Option Nat
  | [] => if sep.isPrefixOf [] then some 0 else none
  | c :: rest =>
    if sep.isPrefixOf (c :: rest) then some 0 else (findSub sep rest).map (· + 1)

/-- The loop of Go `strings.Split` with a nonempty separator, fuelled so
the kernel can evaluate it (`s.length + 1` fuel always suffices; the
empty separator, which Go treats as splitting into runes, is out of
scope). -/
def goSplitFuel (sep : GoStr) : Nat → GoStr → List GoStr
  | 0, s => [s]
  | fuel + 1, s =>
    match findSub sep s with
    | none => [s]
    | some i => s.take i :: goSplitFuel sep fuel (s.drop (i + sep.length))

/-- Go `strings.Split(s, sep)` for nonempty `sep`. -/
def goSplit (sep s : GoStr) : List GoStr :=
  goSplitFuel sep (s.length + 1) s

/-- Go `strings.TrimRight(s, cutset)`. -/
def goTrimRight (s : GoStr) (cutset : List Char) : GoStr :=
  (s.reverse.dropWhile (fun c => decide (c ∈ cutset))).reverse

/-- Go `strings.TrimSpace` (ASCII whitespace suffices here). -/
def goTrimSpace (s : GoStr) : GoStr :=
  ((s.dropWhile Char.isWhitespace).reverse.dropWhile Char.isWhitespace).reverse

/-- First index of any cutset character (Go `strings.IndexAny`). -/
def goIndexAny : GoStr → List Char → Option Nat
  | [], _ => none
  | c :: rest, cutset =>
    if c ∈ cutset then some 0 else (goIndexAny rest cutset).map (· + 1)

def unhex (c : Char) : Option Nat :=
  if '0' ≤ c ∧ c ≤ '9' then some (c.toNat - 48)
  else if 'a' ≤ c ∧ c ≤ 'f' then some (c.toNat - 87)
  else if 'A' ≤ c ∧ c ≤ 'F' then some (c.toNat - 55)
  else none

/-- Go `url.QueryUnescape`: `%XX` decodes a byte, `+` decodes to space,
a malformed escape is an error. -/
def queryUnescape : GoStr → Except GoStr GoStr
  | [] => .ok []
  | '%' :: a :: b :: rest =>
    match unhex a, unhex b with
    | some x, some y => (queryUnescape rest).map (fun t => Char.ofNat (16 * x + y) :: t)
    | _, _ => .error "invalid URL escape".data
  | '%' :: _ => .error "invalid URL escape".data
  | '+' :: rest => (queryUnescape rest).map (fun t => ' ' :: t)
  | c :: rest => (queryUnescape rest).map (fun t => c :: t)

/-- Go `url.Values`: a map from key to the list of values, modelled as
an association list in insertion order (`Encode` sorts it anyway). -/
abbrev Values := List (GoStr × List GoStr)

/-- `url.Values.Get`: first value of the key, `""` when absent. -/
def valuesGet (v : Values) (key : GoStr) : GoStr :=
  match v.lookup key with
  | some (x :: _) => x
  | _ => []

/-- `m[key] = append(m[key], value)`. -/
def valuesAdd (v : Values) (key value : GoStr) : Values :=
  if (v.lookup key).isSome then
    v.map (fun p => if p.1 = key then (p.1, p.2 ++ [value]) else p)
  else v ++ [(key, [value])]

/-- `url.Values.Set`: replace the key's values with the one value. -/
def valuesSet (v : Values) (key value : GoStr) : Values :=
  if (v.lookup key).isSome then
    v.map (fun p => if p.1 = key then (p.1, [value]) else p)
  else v ++ [(key, [value])]

/-- `url.Values.Del`. -/
def valuesDel (v : Values) (key : GoStr) : Values :=
  v.filter (fun p => !(p.1 = key : Bool))

/-- The loop of Go 1.11 `url.parseQuery`: split on `&`/`;`, split each
pair at the first `=`, unescape both halves, remember the first error
and keep going.  Fuelled (`query.length + 1` suffices: every iteration
strictly shrinks the remainder). -/
def goParseQueryLoop (fuel : Nat) (query : GoStr) (m : Values) (err : Option GoStr) :
    Values × Option GoStr :=
  match fuel with
  | 0 => (m, err)
  | fuel + 1 =>
    if query = [] then (m, err)
    else
      let cut := goIndexAny query ['&', ';']
      let key := match cut with | some i => query.take i | none => query
      let rest := match cut with | some i => query.drop (i + 1) | none => []
      if key = [] then goParseQueryLoop fuel rest m err
      else
        let eqIdx := goIndexAny key ['=']
        let k := match eqIdx with | some i => key.take i | none => key
        let v := match eqIdx with | some i => key.drop (i + 1) | none => []
        match queryUnescape k with
        | .error e =>
          goParseQueryLoop fuel rest m (match err with | none => some e | some e0 => some e0)
        | .ok k2 =>
          match queryUnescape v with
          | .error e =>
            goParseQueryLoop fuel rest m (match err with | none => some e | some e0 => some e0)
          | .ok v2 => goParseQueryLoop fuel rest (valuesAdd m k2 v2) err

/-- Go 1.11 `url.ParseQuery`: the parsed map and the first error. -/
def goParseQuery (s : GoStr) : Values × Option GoStr :=
  goParseQueryLoop (s.length + 1) s [] none

def hexUpper (n : Nat) : Char :=
  if n < 10 then Char.ofNat (48 + n) else Char.ofNat (55 + n)

/-- One byte under Go `url.QueryEscape`: unreserved characters pass,
space becomes `+`, everything else `%XX` with uppercase hex. -/
def escapeChar (c : Char) : GoStr :=
  if ('A' ≤ c ∧ c ≤ 'Z') ∨ ('a' ≤ c ∧ c ≤ 'z') ∨ ('0' ≤ c ∧ c ≤ '9') ∨
      c = '-' ∨ c = '_' ∨ c = '.' ∨ c = '~' then [c]
  else if c = ' ' then ['+']
  else ['%', hexUpper (c.toNat / 16), hexUpper (c.toNat % 16)]

/-- Go `url.QueryEscape`. -/
def queryEscape (s : GoStr) : GoStr :=
  (s.map escapeChar).flatten

/-- Byte-wise lexicographic order on Go strings (`sort.Strings`). -/
def lexLt : GoStr → GoStr → Bool
  | [], [] => false
  | [], _ :: _ => true
  | _ :: _, [] => false
  | a :: as, b :: bs => if a < b then true else if b < a then false else lexLt as bs

def insertSorted (x : GoStr × List GoStr) :
    List (GoStr × List GoStr) → List (GoStr × List GoStr)
  | [] => [x]
  | y :: rest => if lexLt y.1 x.1 then y :: insertSorted x rest else x :: y :: rest

/-- The keys sorted lexicographically, as `url.Values.Encode` sorts them. -/
def sortValues (v : Values) : Values :=
  v.foldr insertSorted []

/-- `url.Values.Encode`: keys in sorted order, every value escaped as
`key=value`, joined with `&`. -/
def valuesEncode (v : Values) : GoStr :=
  List.intercalate ['&']
    (((sortValues v).map
      (fun p => p.2.map (fun w => queryEscape p.1 ++ '=' :: queryEscape w))).flatten)

def b64Char (n : Nat) : Char :=
  if n < 26 then Char.ofNat (65 + n)
  else if n < 52 then Char.ofNat (97 + (n - 26))
  else if n < 62 then Char.ofNat (48 + (n - 52))
  else if n = 62 then '+' else '/'

/-- Go `base64.StdEncoding.EncodeToString` over bytes. -/
def base64StdEncode : List Nat → GoStr
  | [] => []
  | [b0] =>
    [b64Char (b0 % 256 / 4), b64Char (b0 % 256 % 4 * 16), '=', '=']
  | [b0, b1] =>
    [b64Char (b0 % 256 / 4), b64Char (b0 % 256 % 4 * 16 + b1 % 256 / 16),
      b64Char (b1 % 256 % 16 * 4), '=']
  | b0 :: b1 :: b2 :: rest =>
    b64Char (b0 % 256 / 4) :: b64Char (b0 % 256 % 4 * 16 + b1 % 256 / 16) ::
      b64Char (b1 % 256 % 16 * 4 + b2 % 256 / 64) :: b64Char (b2 % 256 % 64) ::
        base64StdEncode rest

/-- Go `strings.ReplaceAll` for single-character patterns. -/
def goReplaceAllChar (s : GoStr) (a b : Char) : GoStr :=
  s.map (fun c => if c = a then b else c)

theorem goSplitFuel_none {sep t : GoStr} {fuel : Nat} (h : findSub sep t = none) :
    goSplitFuel sep (fuel + 1) t = [t] := by
  unfold goSplitFuel
  rw [h]

theorem findSub_some_ne_nil {sep s : GoStr} {i : Nat} (hsep : sep ≠ [])
    (h : findSub sep s = some i) : s ≠ [] := by
  intro hs
  subst hs
  unfold findSub at h
  rcases sep with _ | ⟨c, cs⟩
  · exact hsep rfl
  · simp [List.isPrefixOf] at h

theorem goSplitFuel_irrel {sep : GoStr} (hsep : sep ≠ []) :
    ∀ fuel s, s.length < fuel → goSplitFuel sep fuel s = goSplit sep s := by
  intro fuel
  induction fuel using Nat.strong_induction_on with
  | _ fuel ih =>
    intro s hs
    rcases fuel with _ | f
    · omega
    · rw [goSplitFuel]
      unfold goSplit
      rw [goSplitFuel]
      cases hf : findSub sep s with
      | none => rfl
      | some i =>
        simp only
        congr 1
        have hsnil : s ≠ [] := findSub_some_ne_nil hsep hf
        have hseplen : 1 ≤ sep.length := by
          rcases sep with _ | _
          · exact absurd rfl hsep
          · simp
        have hslen : 1 ≤ s.length := by
          rcases s with _ | _
          · exact absurd rfl hsnil
          · simp
        have hdrop : (s.drop (i + sep.length)).length < s.length := by
          rw [List.length_drop]
          omega
        rw [ih f (by omega) _ (by omega), ih s.length (by omega) _ hdrop]

theorem goSplit_two {sep pre tail : GoStr} (hsep : sep ≠ [])
    (h1 : findSub sep (pre ++ sep ++ tail) = some pre.length)
    (h2 : findSub sep tail = none) :
    goSplit sep (pre ++ sep ++ tail) = [pre, tail] := by
  unfold goSplit
  rw [goSplitFuel, h1]
  simp only
  rw [List.append_assoc, List.take_left, ← List.append_assoc,
    List.drop_left' (by simp)]
  have hseplen : 1 ≤ sep.length := by
    rcases sep with _ | _
    · exact absurd rfl hsep
    · simp
  rw [goSplitFuel_irrel hsep _ tail (by simp; omega), goSplit,
    goSplitFuel_none h2]

theorem findSub_single {c : Char} {a b : GoStr} (ha : c ∉ a) :
    findSub [c] (a ++ c :: b) = some a.length := by
  induction a with
  | nil => simp [findSub, List.isPrefixOf]
  | cons x xs ih =>
    have hx : c ≠ x := fun h => ha (h ▸ List.mem_cons_self x xs)
    have ha' : c ∉ xs := fun h => ha (List.mem_cons_of_mem x h)
    rw [show (x :: xs) ++ c :: b = x :: (xs ++ c :: b) from rfl, findSub]
    rw [if_neg (by simp [List.isPrefixOf, hx]), ih ha']
    simp

theorem goSplit_char_cons {c : Char} {a rest : GoStr} (ha : c ∉ a) :
    goSplit [c] (a ++ c :: rest) = a :: goSplit [c] rest := by
  unfold goSplit
  rw [goSplitFuel, findSub_single ha]
  simp only
  rw [List.take_left' rfl]
  rw [show a ++ c :: rest = (a ++ [c]) ++ rest by simp]
  rw [List.drop_left' (by simp)]
  congr 1
  rw [goSplitFuel_irrel (by simp) _ rest (by simp; omega)]
  rfl

end GoStd

/-! ## Probe state machine (`probe.go` in package blackfire) -/

namespace Probe

/-- The four probe states (`profilerStateOff` … `profilerStateSending`). -/
inductive ProfilerState
  | off
  | enabled
  | disabled
  | sending
  deriving DecidableEq, Repr

/-- `probe.canEnableProfiling` -/
def canEnableProfiling : ProfilerState → Bool
  | .off | .disabled => true
  | .enabled | .sending => false

/-- `probe.canDisableProfiling` -/
def canDisableProfiling : ProfilerState → Bool
  | .enabled => true
  | .off | .disabled | .sending => false

/-- `probe.canEndProfiling` -/
def canEndProfiling : ProfilerState → Bool
  | .enabled | .disabled => true
  | .off | .sending => false

/-- Externally visible side effects a public probe method can set off.
`triggerStopProfiler b` is a send of `b` on the profile-disable trigger
channel (`b = true` asks the rearm loop to end/encode/send the profile,
`b = false` only to stop the sampler). -/
inductive ProbeAction
  | triggerStopProfiler (shouldEndProfile : Bool)
  deriving DecidableEq, Repr

/-- `probe.End`: configuration load, `canProfile` gate, then the
double-checked `canEndProfiling` guard on both sides of the mutex, and
finally `triggerStopProfiler(true)`.  `End` itself never mutates
`currentState`; the returned state is the state after the call returns.
`cfgLoadErr` is the result of `p.configuration.load()`, `canProfile`
the value of `p.configuration.canProfile()`. -/
def probeEnd (cfgLoadErr : Option GoStr) (canProfile : Bool) (s : ProfilerState) :
    ProfilerState × Option GoStr × List ProbeAction :=
  match cfgLoadErr with
  | some e => (s, some e, [])
  | none =>
    if !canProfile then (s, none, [])
    else if !canEndProfiling s then (s, none, [])
    -- the second, post-mutex check of the double-checked guard
    else if !canEndProfiling s then (s, none, [])
    else (s, none, [.triggerStopProfiler true])

/-- The result of `probe.GenerateSubProfileQuery`: success, the Go
error return, or a runtime panic (`parts[1]` indexed out of range when
no `&` follows the signature value). -/
inductive GoResult
  | ok (s : GoStr)
  | err (s : GoStr)
  | panic
  deriving DecidableEq, Repr

/-- The 9-character sub-profile id of `GenerateSubProfileQuery`: the 7
random bytes base64-encoded, `=` stripped, `+`→`A`, `/`→`B`, sliced to
`[0:9]` (a 7-byte token always yields 10 characters, so the slice — a
Go panic when shorter — is total here). -/
def subProfileId (token : List Nat) : GoStr :=
  (GoStd.goReplaceAllChar
    (GoStd.goReplaceAllChar (GoStd.goTrimRight (GoStd.base64StdEncode token) ['='])
      '+' 'A') '/' 'B').take 9

/-- `probe.GenerateSubProfileQuery`, with the 7 `rand.Read` bytes passed
in as `token`: split the configured query at `"signature="`; trim
trailing `&` off the challenge; re-split the remainder on `&` — the
signature is element 0 and *only element 1* (the first trailing
parameter) is handed to `url.ParseQuery`; drop `aggreg_samples`; read
the parent as the part after the first `:` of `sub_profile`; set
`sub_profile` to `parent:id`; rejoin.  (Go wraps the `ParseQuery`
error with `errors.Wrapf`; the embedding keeps the underlying
message, which no claim inspects.) -/
def GenerateSubProfileQuery (bfQuery : GoStr) (token : List Nat) : GoResult :=
  let parts := GoStd.goSplit "signature=".data bfQuery
  if parts.length < 2 then
    .err "Blackfire: Unable to generate a sub-profile query".data
  else
    let challenge := GoStd.goTrimRight (parts.getD 0 []) ['&']
    let parts2 := GoStd.goSplit ['&'] (parts.getD 1 [])
    let signature := parts2.getD 0 []
    match parts2.get? 1 with
    | none => .panic
    | some tail1 =>
      let parsed := GoStd.goParseQuery tail1
      match parsed.2 with
      | some e => .err e
      | none =>
        let args := GoStd.valuesDel parsed.1 "aggreg_samples".data
        let spParts := GoStd.goSplit [':'] (GoStd.valuesGet args "sub_profile".data)
        let parent := if spParts.length > 1 then spParts.getD 1 [] else []
        let args2 := GoStd.valuesSet args "sub_profile".data
          (parent ++ ':' :: subProfileId token)
        .ok (challenge ++ "&signature=".data ++ signature ++ '&' :: GoStd.valuesEncode args2)

/-- The claim's reading of `GenerateSubProfileQuery` (C7, verbatim from
the spec's words): the challenge prefix and the signature are
preserved, and *the trailing params* — everything after the first `&`
following the signature value — are re-parsed with `aggreg_samples`
removed and `sub_profile` set to `parent:id`. -/
def specGenerateSubProfileQuery (bfQuery : GoStr) (token : List Nat) : GoResult :=
  let parts := GoStd.goSplit "signature=".data bfQuery
  if parts.length < 2 then
    .err "Blackfire: Unable to generate a sub-profile query".data
  else
    let challenge := GoStd.goTrimRight (parts.getD 0 []) ['&']
    let rest := parts.getD 1 []
    let signature := rest.takeWhile (fun c => !(c = '&' : Bool))
    let trailing := (rest.dropWhile (fun c => !(c = '&' : Bool))).drop 1
    let parsed := GoStd.goParseQuery trailing
    match parsed.2 with
    | some e => .err e
    | none =>
      let args := GoStd.valuesDel parsed.1 "aggreg_samples".data
      let spParts := GoStd.goSplit [':'] (GoStd.valuesGet args "sub_profile".data)
      let parent := if spParts.length > 1 then spParts.getD 1 [] else []
      let args2 := GoStd.valuesSet args "sub_profile".data
        (parent ++ ':' :: subProfileId token)
      .ok (challenge ++ "&signature=".data ++ signature ++ '&' :: GoStd.valuesEncode args2)

end Probe

/-! ## Agent connection (`agent_connection.go`) -/

namespace AgentConnection

/-- The buffered writer plus socket of one `agentConnection`.
`buffered`/`sent` model the `bufio.Writer` contents and the bytes already
written to the socket; `closeCalls` counts `conn.Close()` invocations. -/
structure ConnState where
  buffered : List Nat
  sent : List Nat
  closeCalls : Nat
  deriving DecidableEq, Repr

/-- `agentConnection.Flush` = `bufio.Writer.Flush`.  `flushErr` injects the
I/O outcome of the underlying write: on success the buffer is drained to
the socket, on failure the buffer is kept and the error returned. -/
def connFlush (c : ConnState) (flushErr : Option GoStr) : ConnState × Option GoStr :=
  match flushErr with
  | none => ({ c with buffered := [], sent := c.sent ++ c.buffered }, none)
  | some e => (c, some e)

/-- `agentConnection.Close`: `c.Flush()` with its result discarded, then
`return c.conn.Close()` (whose outcome `closeErr` injects). -/
def connClose (c : ConnState) (flushErr closeErr : Option GoStr) : ConnState × Option GoStr :=
  let flushed := connFlush c flushErr
  ({ flushed.1 with closeCalls := flushed.1.closeCalls + 1 }, closeErr)

/-- The spec's wording for the returned error: the first error that
occurred among the flush and the close. -/
def firstError (flushErr closeErr : Option GoStr) : Option GoStr :=
  match flushErr with
  | some e => some e
  | none => closeErr

end AgentConnection

/-! ## Agent client prologue (`agent_client.go`:
`sendProfilePrologue`, `sendBlackfireYaml`).  The network connection is
modelled as the trace of write/read calls the prologue makes on it;
`CurrentBlackfireQuery` (the signing round-trip) is upstream and enters
as the `bfQuery` argument, and the `.blackfire.yml` lookup enters as the
optional `yaml` byte contents. -/

namespace AgentClient

/-- One call on the `agentConnection` during the prologue, in order:
`WriteOrderedHeaders` (one event per header), `WriteEndOfHeaders`,
`ReadEncodedHeader`, `WriteStringHeader`, `WriteMapHeader` (via
`WriteHeaders`), `WriteRawData`. -/
inductive WireEvent
  | orderedHeader (h : GoStr)
  | endOfHeaders
  | readHeader
  | stringHeader (name value : GoStr)
  | mapHeader (name : GoStr) (values : GoStd.Values)
  | rawData (data : List Nat)
  deriving DecidableEq, Repr

/-- `agentClient.getBlackfireProbeHeader`: go version, then
`, blackfire_yml` when a YAML file exists, then `, timespan` when the
timespan flag is set. -/
def getBlackfireProbeHeader (goVersion : GoStr) (hasBlackfireYaml timespanFlag : Bool) :
    GoStr :=
  goVersion ++ (if hasBlackfireYaml then ", blackfire_yml".data else []) ++
    (if timespanFlag then ", timespan".data else [])

/-- `agentClient.sendBlackfireYaml`: the `Blackfire-Yaml-Size` string
header carrying the byte length, then the raw file bytes. -/
def sendBlackfireYaml (contents : List Nat) : List WireEvent :=
  [.stringHeader "Blackfire-Yaml-Size".data (natToStr contents.length),
    .rawData contents]

/-- The ordered headers of the prologue: optional `Blackfire-Auth`
(only when both server id and token are nonempty), then
`Blackfire-Query`, then `Blackfire-Probe`. -/
def orderedHeadersOf (serverId serverToken bfQuery goVersion : GoStr)
    (hasYaml timespanFlag : Bool) : List GoStr :=
  (if serverId ≠ [] ∧ serverToken ≠ [] then
    ["Blackfire-Auth: ".data ++ serverId ++ ':' :: serverToken]
  else []) ++
  ["Blackfire-Query: ".data ++ bfQuery,
    "Blackfire-Probe: ".data ++ getBlackfireProbeHeader goVersion hasYaml timespanFlag]

/-- The one encoded response header read during the YAML exchange. -/
structure RespHeader where
  name : GoStr
  value : GoStr
  deriving DecidableEq, Repr

/-- `agentClient.sendProfilePrologue`: write the ordered headers; when a
`.blackfire.yml` was found, write end-of-headers, read exactly one
response header and act on it (upload on
`Blackfire-Response: blackfire_yml=true`, proceed on any other
`blackfire_yml` value, fail with the trimmed message on
`Blackfire-Error`, fail with "Unexpected agent response" otherwise);
then write the unordered `os-version` map header and end-of-headers.
Returns the wire trace and the Go error. -/
def sendProfilePrologue (serverId serverToken bfQuery goVersion : GoStr)
    (timespanFlag : Bool) (osVersion : GoStd.Values)
    (yaml : Option (List Nat)) (resp : RespHeader) : List WireEvent × Option GoStr :=
  let evs0 := (orderedHeadersOf serverId serverToken bfQuery goVersion
    yaml.isSome timespanFlag).map WireEvent.orderedHeader
  let finish := [WireEvent.mapHeader "os-version".data osVersion, WireEvent.endOfHeaders]
  match yaml with
  | none => (evs0 ++ finish, none)
  | some contents =>
    let evs1 := evs0 ++ [WireEvent.endOfHeaders, WireEvent.readHeader]
    if resp.name = "Blackfire-Response".data then
      match (GoStd.goParseQuery resp.value).2 with
      | some e => (evs1, some e)
      | none =>
        if GoStd.valuesGet (GoStd.goParseQuery resp.value).1 "blackfire_yml".data =
            "true".data then
          (evs1 ++ sendBlackfireYaml contents ++ finish, none)
        else (evs1 ++ finish, none)
    else if resp.name = "Blackfire-Error".data then
      (evs1, some (GoStd.goTrimSpace resp.value))
    else
      (evs1, some ("Unexpected agent response: ".data ++ resp.value))

end AgentClient

/-- C6: when a `.blackfire.yml` file exists, the prologue — after the
ordered headers and an end-of-headers — reads exactly one response
header and acts on it: a `Blackfire-Response` whose `blackfire_yml`
value is `true` makes it write `Blackfire-Yaml-Size: <n>` (`n` the
file's byte length) followed by the raw file bytes; any other
`blackfire_yml` value proceeds without upload; a `Blackfire-Error`
header fails the prologue with that (trimmed) message; any other header
fails it with an "Unexpected agent response" error.  (In the failure
cases the prologue stops before the unordered headers.) -/
theorem sendProfilePrologue_yaml_exchange (serverId serverToken bfQuery goVersion : GoStr)
    (timespanFlag : Bool) (osVersion : GoStd.Values) (contents : List Nat)
    (resp : AgentClient.RespHeader) :
    (∀ vs, resp.name = "Blackfire-Response".data →
      GoStd.goParseQuery resp.value = (vs, none) →
      GoStd.valuesGet vs "blackfire_yml".data = "true".data →
      AgentClient.sendProfilePrologue serverId serverToken bfQuery goVersion
          timespanFlag osVersion (some contents) resp =
        ((AgentClient.orderedHeadersOf serverId serverToken bfQuery goVersion
            true timespanFlag).map AgentClient.WireEvent.orderedHeader ++
          [AgentClient.WireEvent.endOfHeaders, AgentClient.WireEvent.readHeader] ++
          AgentClient.sendBlackfireYaml contents ++
          [AgentClient.WireEvent.mapHeader "os-version".data osVersion,
            AgentClient.WireEvent.endOfHeaders], none)) ∧
    (∀ vs, resp.name = "Blackfire-Response".data →
      GoStd.goParseQuery resp.value = (vs, none) →
      GoStd.valuesGet vs "blackfire_yml".data ≠ "true".data →
      AgentClient.sendProfilePrologue serverId serverToken bfQuery goVersion
          timespanFlag osVersion (some contents) resp =
        ((AgentClient.orderedHeadersOf serverId serverToken bfQuery goVersion
            true timespanFlag).map AgentClient.WireEvent.orderedHeader ++
          [AgentClient.WireEvent.endOfHeaders, AgentClient.WireEvent.readHeader] ++
          [AgentClient.WireEvent.mapHeader "os-version".data osVersion,
            AgentClient.WireEvent.endOfHeaders], none)) ∧
    (resp.name = "Blackfire-Error".data →
      AgentClient.sendProfilePrologue serverId serverToken bfQuery goVersion
          timespanFlag osVersion (some contents) resp =
        ((AgentClient.orderedHeadersOf serverId serverToken bfQuery goVersion
            true timespanFlag).map AgentClient.WireEvent.orderedHeader ++
          [AgentClient.WireEvent.endOfHeaders, AgentClient.WireEvent.readHeader],
          some (GoStd.goTrimSpace resp.value))) ∧
    (resp.name ≠ "Blackfire-Response".data → resp.name ≠ "Blackfire-Error".data →
      AgentClient.sendProfilePrologue serverId serverToken bfQuery goVersion
          timespanFlag osVersion (some contents) resp =
        ((AgentClient.orderedHeadersOf serverId serverToken bfQuery goVersion
            true timespanFlag).map AgentClient.WireEvent.orderedHeader ++
          [AgentClient.WireEvent.endOfHeaders, AgentClient.WireEvent.readHeader],
          some ("Unexpected agent response: ".data ++ resp.value))) := by
  refine ⟨?_, ?_, ?_, ?_⟩
  · intro vs hname hpq hget
    unfold AgentClient.sendProfilePrologue
    simp only [Option.isSome_some, hname, if_pos rfl]
    rw [show (GoStd.goParseQuery resp.value).2 = none from by rw [hpq]]
    rw [show (GoStd.goParseQuery resp.value).1 = vs from by rw [hpq]]
    rw [if_pos hget]
    simp [List.append_assoc]
  · intro vs hname hpq hget
    unfold AgentClient.sendProfilePrologue
    simp only [Option.isSome_some, hname, if_pos rfl]
    rw [show (GoStd.goParseQuery resp.value).2 = none from by rw [hpq]]
    rw [show (GoStd.goParseQuery resp.value).1 = vs from by rw [hpq]]
    rw [if_neg hget]
    simp [List.append_assoc]
  · intro hname
    unfold AgentClient.sendProfilePrologue
    simp only [Option.isSome_some, hname]
    rw [if_neg (by decide)]
    simp
  · intro hname1 hname2
    unfold AgentClient.sendProfilePrologue
    simp only [Option.isSome_some, if_neg hname1, if_neg hname2]

theorem sendProfilePrologue_yaml_witness :
    AgentClient.sendProfilePrologue [] [] "q=1".data "go-1.17".data false []
        (some [97, 98, 99, 10])
        ⟨"Blackfire-Response".data, "blackfire_yml=true".data⟩ =
      ((AgentClient.orderedHeadersOf [] [] "q=1".data "go-1.17".data
          true false).map AgentClient.WireEvent.orderedHeader ++
        [AgentClient.WireEvent.endOfHeaders, AgentClient.WireEvent.readHeader] ++
        AgentClient.sendBlackfireYaml [97, 98, 99, 10] ++
        [AgentClient.WireEvent.mapHeader "os-version".data [],
          AgentClient.WireEvent.endOfHeaders], none) :=
  (sendProfilePrologue_yaml_exchange [] [] "q=1".data "go-1.17".data false []
    [97, 98, 99, 10] ⟨"Blackfire-Response".data, "blackfire_yml=true".data⟩).1
    [("blackfire_yml".data, ["true".data])] rfl (by decide) (by decide)

/-- The parent read by `GenerateSubProfileQuery` from the (single)
re-parsed trailing parameter: the part after the first `:` of
`sub_profile` once `aggreg_samples` is dropped, empty when absent. -/
def subProfileParent (p1 : GoStr) : GoStr :=
  let args := GoStd.valuesDel (GoStd.goParseQuery p1).1 "aggreg_samples".data
  let spParts := GoStd.goSplit [':'] (GoStd.valuesGet args "sub_profile".data)
  if spParts.length > 1 then spParts.getD 1 [] else []

/-- C7 counterexample: on the query `a=1&signature=sig&x=1&y=2` (and
fixed random bytes), `GenerateSubProfileQuery` does not do what the
claim describes (`specGenerateSubProfileQuery`, the claim's words): the
code re-parses only `x=1` — the chunk between the first and second `&`
after the signature — and drops `y=2` from the result, while the claim
says the trailing params are re-parsed and preserved. -/
theorem generateSubProfileQuery_counterexample :
    Probe.GenerateSubProfileQuery "a=1&signature=sig&x=1&y=2".data
        [0, 0, 0, 0, 0, 0, 0] ≠
      Probe.specGenerateSubProfileQuery "a=1&signature=sig&x=1&y=2".data
        [0, 0, 0, 0, 0, 0, 0] := by
  decide

/-- C7 amended: for a query of the form
`pre ++ "signature=" ++ sig & p1 & rest` (one occurrence of
`signature=`, no `&` inside `sig` or `p1`, `p1` parses cleanly),
`GenerateSubProfileQuery` preserves the challenge prefix (with trailing
`&` trimmed) and the signature, re-parses **only the first trailing
parameter `p1`** — dropping `rest` entirely — removes `aggreg_samples`
from it, and sets `sub_profile` to `parent:id` where the parent is read
from the re-parsed `sub_profile` value (empty when absent) and the id
is the 9-character string derived from the 7 random bytes
base64-encoded with `+`→`A`, `/`→`B` and `=` stripped. -/
theorem generateSubProfileQuery_amended (pre sig p1 rest : GoStr) (token : List Nat)
    (h1 : GoStd.findSub "signature=".data
      (pre ++ "signature=".data ++ (sig ++ '&' :: p1 ++ '&' :: rest)) = some pre.length)
    (h2 : GoStd.findSub "signature=".data (sig ++ '&' :: p1 ++ '&' :: rest) = none)
    (hs : '&' ∉ sig) (hp : '&' ∉ p1)
    (hparse : (GoStd.goParseQuery p1).2 = none) :
    Probe.GenerateSubProfileQuery
        (pre ++ "signature=".data ++ (sig ++ '&' :: p1 ++ '&' :: rest)) token =
      Probe.GoResult.ok (GoStd.goTrimRight pre ['&'] ++ "&signature=".data ++ sig ++ '&' ::
        GoStd.valuesEncode (GoStd.valuesSet
          (GoStd.valuesDel (GoStd.goParseQuery p1).1 "aggreg_samples".data)
          "sub_profile".data
          (subProfileParent p1 ++ ':' :: Probe.subProfileId token))) := by
  unfold Probe.GenerateSubProfileQuery
  rw [GoStd.goSplit_two (by decide) h1 h2]
  rw [if_neg (by simp)]
  simp only [List.getD_cons_zero, List.getD_cons_succ]
  rw [show sig ++ '&' :: p1 ++ '&' :: rest = sig ++ '&' :: (p1 ++ '&' :: rest) from by simp]
  rw [GoStd.goSplit_char_cons hs, GoStd.goSplit_char_cons hp]
  simp only [List.get?_cons_succ, List.get?_cons_zero]
  rw [hparse]
  rfl

theorem generateSubProfileQuery_amended_witness :
    Probe.GenerateSubProfileQuery
        ("a=1&".data ++ "signature=".data ++
          ("sig".data ++ '&' :: "x=1".data ++ '&' :: "y=2".data)) [0, 0, 0, 0, 0, 0, 0] =
      Probe.GoResult.ok "a=1&signature=sig&sub_profile=%3AAAAAAAAAA&x=1".data := by
  rw [generateSubProfileQuery_amended "a=1&".data "sig".data "x=1".data "y=2".data
    [0, 0, 0, 0, 0, 0, 0] (by decide) (by decide) (by decide) (by decide) (by decide)]
  decide

/-! ## Theorems for the probe (claim C1) and the connection (claim C9) -/

/-- C1: in `Off` or `Sending`, `probe.End()` is rejected by the
`canEndProfiling` guard: the state is unchanged, no stop/encode/send
action is triggered (no send on the disable-trigger channel) and no
error is returned — given that the configuration loads without error
and `canProfile()` holds, so the guard is what rejects the request. -/
theorem probe_end_off_sending_noop (s : Probe.ProfilerState)
    (h : s = Probe.ProfilerState.off ∨ s = Probe.ProfilerState.sending) :
    Probe.probeEnd none true s = (s, none, []) := by
  rcases h with h | h <;> subst h <;> rfl

theorem probe_end_off_sending_noop_witness :
    (Probe.ProfilerState.off = Probe.ProfilerState.off ∨
      Probe.ProfilerState.off = Probe.ProfilerState.sending) ∧
    Probe.probeEnd none true Probe.ProfilerState.off =
      (Probe.ProfilerState.off, none, []) :=
  ⟨Or.inl rfl, probe_end_off_sending_noop Probe.ProfilerState.off (Or.inl rfl)⟩

/-- C9 counterexample: `agentConnection.Close` does not return the first
error among the flush and the close.  With a failing flush and a
succeeding close it returns `none`, while the claim requires the flush
error to be reported. -/
theorem conn_close_not_first_error :
    (AgentConnection.connClose ⟨[1, 2], [], 0⟩ (some ['E']) none).2 ≠
      AgentConnection.firstError (some ['E']) none := by
  decide

/-- C9 amended: every call to `Close` — including a repeated call on an
already-closed connection — flushes the buffered output (draining the
buffer when the flush succeeds) and then closes the underlying socket,
but it returns only the close error; a flush error is discarded. -/
theorem conn_close_flush_then_close (c : AgentConnection.ConnState)
    (flushErr closeErr flushErr2 closeErr2 : Option GoStr) :
    (AgentConnection.connClose c flushErr closeErr).2 = closeErr ∧
    (AgentConnection.connClose c flushErr closeErr).1.closeCalls = c.closeCalls + 1 ∧
    (flushErr = none → (AgentConnection.connClose c flushErr closeErr).1.buffered = []) ∧
    (AgentConnection.connClose
      (AgentConnection.connClose c flushErr closeErr).1 flushErr2 closeErr2).2 = closeErr2 ∧
    (AgentConnection.connClose
      (AgentConnection.connClose c flushErr closeErr).1 flushErr2 closeErr2).1.closeCalls =
      c.closeCalls + 2 := by
  refine ⟨rfl, ?_, ?_, rfl, ?_⟩
  · cases flushErr <;> rfl
  · intro h; subst h; rfl
  · cases flushErr <;> cases flushErr2 <;> rfl

theorem conn_close_flush_then_close_witness :
    ((AgentConnection.connClose ⟨[7], [], 0⟩ none none).2 = none) ∧
    ((AgentConnection.connClose ⟨[7], [], 0⟩ none none).1.closeCalls = 0 + 1) :=
  ⟨(conn_close_flush_then_close ⟨[7], [], 0⟩ none none none none).1,
    (conn_close_flush_then_close ⟨[7], [], 0⟩ none none none none).2.1⟩

end GoBlackfire
